import Mathlib

/-!
Verification of the grid-harmonization / temporal-join pipeline of the
CotalityQ1Capstone repository, as a shallow embedding in Lean 4.

The embedding follows the Python sources:
  * `Nlcd` embeds `mode_statistic` from `download_nlcd_annual.py`
    (categorical mode with an exclusion set; scipy.stats.mode breaks
    count ties by returning the smallest value).
  * `DemProc` embeds the slope/aspect computation and the mean
    accumulators of `process_dem_data.py`.
  * `Combine` embeds the per-year table construction and left joins of
    `combine_dataset.py`.
Real-valued samples and coordinates are modelled as rationals (ℚ); the
transcendental steps (cos, sqrt, arctan2) are modelled over ℝ.  A `none`
value of an `Option` models the NaN / null no-data sentinel.
-/

namespace Nlcd

/-- Number of occurrences of `v` in `l` (the per-category counter of the
mode accumulator). -/
def countOf (l : List ℤ) (v : ℤ) : ℕ := (l.filter (fun x => x = v)).length

/-- One comparison step of scipy.stats.mode: candidate `b` replaces the
current best `a` when it has a strictly larger count, or an equal count
and a smaller category id (scipy returns the smallest of the modes). -/
def pickMode (l : List ℤ) (a b : ℤ) : ℤ :=
  if countOf l a < countOf l b ∨ (countOf l b = countOf l a ∧ b < a) then b else a

/-- The value `scipy.stats.mode(l, keepdims=False).mode` for a nonempty
list `l`: the most frequent element, ties broken by the smallest value. -/
def scipyMode (l : List ℤ) : ℤ :=
  match l with
  | [] => 0
  | x :: xs => xs.foldl (pickMode (x :: xs)) x

/-- Hard-coded NLCD exclusion classes: Open Water, Perennial Snow, No Data. -/
def EXCLUDED_CLASSES : List ℤ := [11, 12, 250]

/-- The samples of a cell that survive the exclusion filter
(`values[~np.isin(values, EXCLUDED_CLASSES)]`). -/
def validSamples (excluded values : List ℤ) : List ℤ :=
  values.filter (fun v => !excluded.contains v)

/-- Embedding of `mode_statistic` from `download_nlcd_annual.py`: empty
cell ↦ no-data; filter the exclusion set; all excluded ↦ no-data;
otherwise the scipy mode of the remaining samples. -/
def mode_statistic (excluded values : List ℤ) : Option ℤ :=
  if values.length = 0 then none
  else
    if (validSamples excluded values).length = 0 then none
    else some (scipyMode (validSamples excluded values))

/-- Relation: `m` beats-or-ties `v` in the mode order: strictly larger count, or
equal count and `m ≤ v`. -/
def Dominates (l : List ℤ) (m v : ℤ) : Prop :=
  countOf l v < countOf l m ∨ (countOf l v = countOf l m ∧ m ≤ v)

theorem dominates_refl (l : List ℤ) (a : ℤ) : Dominates l a a :=
  Or.inr ⟨rfl, le_refl a⟩

theorem dominates_trans {l : List ℤ} {a b c : ℤ}
    (hab : Dominates l a b) (hbc : Dominates l b c) : Dominates l a c := by
  rcases hab with h1 | ⟨h1, h1le⟩ <;> rcases hbc with h2 | ⟨h2, h2le⟩
  · exact Or.inl (lt_trans h2 h1)
  · exact Or.inl (h2 ▸ h1)
  · exact Or.inl (h1 ▸ h2)
  · exact Or.inr ⟨h2.trans h1, le_trans h1le h2le⟩

theorem pickMode_eq_or (l : List ℤ) (a b : ℤ) :
    pickMode l a b = a ∨ pickMode l a b = b := by
  unfold pickMode
  split
  · exact Or.inr rfl
  · exact Or.inl rfl

theorem pickMode_dominates_left (l : List ℤ) (a b : ℤ) :
    Dominates l (pickMode l a b) a := by
  unfold pickMode
  split
  · rename_i h
    rcases h with h | ⟨he, hlt⟩
    · exact Or.inl h
    · exact Or.inr ⟨he.symm, le_of_lt hlt⟩
  · exact dominates_refl l a

theorem pickMode_dominates_right (l : List ℤ) (a b : ℤ) :
    Dominates l (pickMode l a b) b := by
  unfold pickMode
  split
  · exact dominates_refl l b
  · rename_i h
    push_neg at h
    rcases lt_or_le (countOf l b) (countOf l a) with hlt | hle
    · exact Or.inl hlt
    · have he : countOf l b = countOf l a := le_antisymm h.1 hle
      exact Or.inr ⟨he, h.2 he⟩

theorem foldl_pickMode_spec (l ys : List ℤ) (a : ℤ) :
    (ys.foldl (pickMode l) a = a ∨ ys.foldl (pickMode l) a ∈ ys) ∧
    Dominates l (ys.foldl (pickMode l) a) a ∧
    ∀ y ∈ ys, Dominates l (ys.foldl (pickMode l) a) y := by
  induction ys generalizing a with
  | nil =>
    refine ⟨Or.inl rfl, dominates_refl l a, ?_⟩
    intro y hy
    exact absurd hy (List.not_mem_nil y)
  | cons y ys ih =>
    have hstep : (y :: ys).foldl (pickMode l) a = ys.foldl (pickMode l) (pickMode l a y) := rfl
    obtain ⟨ihmem, ihdom, ihall⟩ := ih (pickMode l a y)
    refine ⟨?_, ?_, ?_⟩
    · rw [hstep]
      rcases ihmem with hm | hm
      · rcases pickMode_eq_or l a y with hp | hp
        · exact Or.inl (hm.trans hp)
        · exact Or.inr (by rw [hm, hp]; exact List.mem_cons_self y ys)
      · exact Or.inr (List.mem_cons_of_mem y hm)
    · rw [hstep]
      exact dominates_trans ihdom (pickMode_dominates_left l a y)
    · intro z hz
      rw [hstep]
      rcases List.mem_cons.mp hz with hzy | hzys
      · subst hzy
        exact dominates_trans ihdom (pickMode_dominates_right l a z)
      · exact ihall z hzys

theorem scipyMode_spec (l : List ℤ) (hl : l ≠ []) :
    scipyMode l ∈ l ∧ ∀ v ∈ l, Dominates l (scipyMode l) v := by
  match l with
  | [] => exact absurd rfl hl
  | x :: xs =>
    obtain ⟨hmem, hdom, hall⟩ := foldl_pickMode_spec (x :: xs) xs x
    have hsm : scipyMode (x :: xs) = xs.foldl (pickMode (x :: xs)) x := rfl
    constructor
    · rw [hsm]
      rcases hmem with h | h
      · rw [h]; exact List.mem_cons_self x xs
      · exact List.mem_cons_of_mem x h
    · intro v hv
      rw [hsm]
      rcases List.mem_cons.mp hv with hvx | hvxs
      · subst hvx; exact hdom
      · exact hall v hvxs

/-- C1: for mode-with-exclusions aggregation, a finalized cell value is
the most frequent category among the cell's samples outside the
exclusion set, with count ties broken by the lowest category id; in
particular samples `[11, 11, 21, 22, 22]` with exclusion set `{11}`
finalize to `22`. -/
theorem mode_exclusions_most_frequent (excluded values : List ℤ) (m : ℤ)
    (h : mode_statistic excluded values = some m) :
    m ∈ validSamples excluded values ∧
    (∀ v ∈ validSamples excluded values,
      countOf (validSamples excluded values) v ≤ countOf (validSamples excluded values) m) ∧
    (∀ v ∈ validSamples excluded values,
      countOf (validSamples excluded values) v = countOf (validSamples excluded values) m →
        m ≤ v) ∧
    mode_statistic [11] [11, 11, 21, 22, 22] = some 22 := by
  unfold mode_statistic at h
  by_cases h0 : values.length = 0
  · simp [h0] at h
  · rw [if_neg h0] at h
    by_cases h1 : (validSamples excluded values).length = 0
    · simp [h1] at h
    · rw [if_neg h1] at h
      have hm : m = scipyMode (validSamples excluded values) := (Option.some_inj.mp h).symm
      have hne : validSamples excluded values ≠ [] := by
        intro hc
        exact h1 (by rw [hc]; rfl)
      obtain ⟨hmem, hall⟩ := scipyMode_spec (validSamples excluded values) hne
      subst hm
      refine ⟨hmem, ?_, ?_, by decide⟩
      · intro v hv
        rcases hall v hv with hlt | ⟨he, _⟩
        · exact le_of_lt hlt
        · exact le_of_eq he
      · intro v hv hcnt
        rcases hall v hv with hlt | ⟨_, hle⟩
        · exact absurd hcnt (ne_of_lt hlt)
        · exact hle

/-- Witness for C1 at the spec's concrete example. -/
theorem mode_exclusions_most_frequent_witness :
    (22 : ℤ) ∈ validSamples [11] [11, 11, 21, 22, 22] ∧
    (∀ v ∈ validSamples [11] [11, 11, 21, 22, 22],
      countOf (validSamples [11] [11, 11, 21, 22, 22]) v ≤
        countOf (validSamples [11] [11, 11, 21, 22, 22]) 22) ∧
    (∀ v ∈ validSamples [11] [11, 11, 21, 22, 22],
      countOf (validSamples [11] [11, 11, 21, 22, 22]) v =
        countOf (validSamples [11] [11, 11, 21, 22, 22]) 22 → (22 : ℤ) ≤ v) ∧
    mode_statistic [11] [11, 11, 21, 22, 22] = some 22 :=
  mode_exclusions_most_frequent [11] [11, 11, 21, 22, 22] 22 (by decide)

/-- C8: mode-with-exclusions finalizes to the no-data sentinel whenever
every sample of the cell is in the exclusion set, and in particular when
the cell received zero samples. -/
theorem mode_all_excluded_nodata (excluded values : List ℤ)
    (h : ∀ v ∈ values, excluded.contains v = true) :
    mode_statistic excluded values = none ∧ mode_statistic excluded [] = none := by
  constructor
  · unfold mode_statistic
    by_cases h0 : values.length = 0
    · rw [if_pos h0]
    · rw [if_neg h0]
      have hfil : validSamples excluded values = [] := by
        unfold validSamples
        rw [List.filter_eq_nil_iff]
        intro a ha
        rw [h a ha]
        simp
      rw [if_pos (by rw [hfil]; rfl)]
  · rfl

/-- Witness for C8: a cell whose samples are all excluded NLCD classes. -/
theorem mode_all_excluded_nodata_witness :
    mode_statistic EXCLUDED_CLASSES [11, 12, 11, 250] = none ∧
    mode_statistic EXCLUDED_CLASSES [] = none :=
  mode_all_excluded_nodata EXCLUDED_CLASSES [11, 12, 11, 250] (by decide)

end Nlcd

namespace DemProc

/-- Per-cell mean accumulator of `process_dem_data.py`: running `sum`
and `count` for one coarse cell. -/
structure CellAcc where
  sum : ℚ
  count : ℕ
deriving DecidableEq

/-- The local per-tile contribution for one coarse cell: the binned
`sum` and `count` statistics over the tile's samples in that cell. -/
def localAcc (vals : List ℚ) : CellAcc := ⟨vals.sum, vals.length⟩

/-- Lock-guarded merge step `accumulators[k] += local_k`. -/
def mergeAcc (a b : CellAcc) : CellAcc := ⟨a.sum + b.sum, a.count + b.count⟩

/-- Folding every tile's local contribution into the shared accumulator. -/
def totalAcc (tiles : List CellAcc) : CellAcc := tiles.foldl mergeAcc ⟨0, 0⟩

/-- The shared accumulator of one coarse cell after all tiles (each
given by its list of samples falling in the cell) are merged. -/
def demAcc (tiles : List (List ℚ)) : CellAcc := totalAcc (tiles.map localAcc)

/-- Finalization in `main`: `fin[valid] = acc[valid] / count[valid]`
with NaN (here `none`) where `count == 0`. -/
def finalizeMean (a : CellAcc) : Option ℚ :=
  if 0 < a.count then some (a.sum / (a.count : ℚ)) else none

theorem foldl_mergeAcc (l : List CellAcc) (a : CellAcc) :
    l.foldl mergeAcc a = ⟨a.sum + (l.map CellAcc.sum).sum, a.count + (l.map CellAcc.count).sum⟩ := by
  induction l generalizing a with
  | nil => cases a; simp
  | cons x xs ih =>
    rw [List.foldl_cons, ih]
    simp [mergeAcc, add_assoc]

theorem demAcc_eq (tiles : List (List ℚ)) :
    demAcc tiles = ⟨tiles.flatten.sum, tiles.flatten.length⟩ := by
  unfold demAcc totalAcc
  rw [foldl_mergeAcc]
  congr 1
  · simp only [zero_add, List.map_map]
    induction tiles with
    | nil => rfl
    | cons t ts ih => simp [localAcc, List.sum_append, ih]
  · simp only [zero_add, List.map_map]
    induction tiles with
    | nil => rfl
    | cons t ts ih => simp [localAcc, List.length_append, ih]

/-- C2: after a mean aggregation pass, the accumulator's count is the
number of contributing samples, a cell with a positive count finalizes
to sum/count, and a cell with zero count finalizes to the no-data
sentinel (the division is never taken there). -/
theorem mean_finalize_spec (tiles : List (List ℚ)) :
    (demAcc tiles).count = tiles.flatten.length ∧
    (0 < (demAcc tiles).count →
      finalizeMean (demAcc tiles) = some (tiles.flatten.sum / (tiles.flatten.length : ℚ))) ∧
    ((demAcc tiles).count = 0 → finalizeMean (demAcc tiles) = none) := by
  rw [demAcc_eq]
  refine ⟨rfl, ?_, ?_⟩
  · intro h
    unfold finalizeMean
    rw [if_pos h]
  · intro h
    unfold finalizeMean
    rw [if_neg (by omega)]

/-- Witness for C2: two tiles contributing samples 1,2 and 3 to one
cell finalize to mean 2; count matches the three samples. -/
theorem mean_finalize_spec_witness :
    (demAcc [[(1 : ℚ), 2], [3]]).count = ([[(1 : ℚ), 2], [3]]).flatten.length ∧
    finalizeMean (demAcc [[(1 : ℚ), 2], [3]]) =
      some (([[(1 : ℚ), 2], [3]]).flatten.sum / ((([[(1 : ℚ), 2], [3]]).flatten.length : ℕ) : ℚ)) :=
  ⟨(mean_finalize_spec [[(1 : ℚ), 2], [3]]).1,
   (mean_finalize_spec [[(1 : ℚ), 2], [3]]).2.1
     (by simp [demAcc, totalAcc, localAcc, mergeAcc])⟩

/-- The epsilon clamp applied to the aggregated mean x-component before
`arctan2`: `np.where(np.isclose(fin_sx, 0, atol=1e-12), 1e-3, fin_sx)`. -/
def clampX (x : ℚ) : ℚ :=
  if |x| ≤ 1 / 10 ^ 12 then 1 / 1000 else x

/-- Real arctan2, as the argument of the complex number x + y i. -/
noncomputable def atan2 (y x : ℝ) : ℝ := Complex.arg (x + y * Complex.I)

/-- Coarse aspect of `process_dem_data.py`: finalize the mean x/y
gradient components of the cell, clamp the mean x-component, then take
`arctan2(mean_sy, mean_sx)`; empty cells stay no-data. -/
noncomputable def aspect_from_acc (sx sy : CellAcc) : Option ℝ :=
  match finalizeMean sx, finalizeMean sy with
  | some mx, some my => some (atan2 (my : ℝ) ((clampX mx : ℚ) : ℝ))
  | _, _ => none

/-- C3: coarse aspect is computed once after aggregation as atan2 of the
mean y-component and the clamped mean x-component; a mean x-component
within 1e-12 of zero is clamped to the positive epsilon 1e-3 (so the
clamped component is never zero), and for aggregated components (1,0)
and (-1,0) with equal counts the mean is (0,0) and the finalized aspect
is the finite angle 0. -/
theorem aspect_clamp_atan2 (mx : ℚ) (h : |mx| ≤ 1 / 10 ^ 12) :
    clampX mx = 1 / 1000 ∧
    (∀ z : ℚ, clampX z ≠ 0) ∧
    finalizeMean (localAcc [1, -1]) = some 0 ∧
    finalizeMean (localAcc [0, 0]) = some 0 ∧
    aspect_from_acc (localAcc [1, -1]) (localAcc [0, 0]) = some 0 := by
  have hx : finalizeMean (localAcc [(1 : ℚ), -1]) = some 0 := by
    norm_num [finalizeMean, localAcc, List.sum_cons, List.sum_nil]
  have hy : finalizeMean (localAcc [(0 : ℚ), 0]) = some 0 := by
    norm_num [finalizeMean, localAcc, List.sum_cons, List.sum_nil]
  refine ⟨if_pos h, ?_, hx, hy, ?_⟩
  · intro z
    unfold clampX
    split
    · norm_num
    · rename_i hz
      intro hc
      rw [hc] at hz
      simp at hz
  · unfold aspect_from_acc
    rw [hx, hy]
    show some (atan2 ((0 : ℚ) : ℝ) ((clampX 0 : ℚ) : ℝ)) = some 0
    have hc : clampX 0 = 1 / 1000 := if_pos (by norm_num)
    rw [hc]
    congr 1
    unfold atan2
    have hzero : ((((0 : ℚ) : ℝ) : ℂ)) * Complex.I = 0 := by norm_num
    rw [hzero, add_zero]
    exact Complex.arg_ofReal_of_nonneg (by norm_num)

/-- Witness for C3 at mean x-component exactly zero. -/
theorem aspect_clamp_atan2_witness :
    clampX 0 = 1 / 1000 ∧
    (∀ z : ℚ, clampX z ≠ 0) ∧
    finalizeMean (localAcc [1, -1]) = some 0 ∧
    finalizeMean (localAcc [0, 0]) = some 0 ∧
    aspect_from_acc (localAcc [1, -1]) (localAcc [0, 0]) = some 0 :=
  aspect_clamp_atan2 0 (by norm_num)

end DemProc

namespace DemProc

/-- One-dimensional `np.gradient` with unit spacing over `n` samples:
one-sided differences at the two edges, central differences in the
interior, in units of elevation per index step. -/
def npGradient1 (f : ℕ → ℚ) (n i : ℕ) : ℚ :=
  if i = 0 then f 1 - f 0
  else if i = n - 1 then f (n - 1) - f (n - 2)
  else (f (i + 1) - f (i - 1)) / 2

/-- An in-memory elevation tile as seen by
`calculate_slope_aspect_tile`: cell values (no-data already masked
upstream), the latitude of each row, the absolute cell resolutions, and
whether the CRS is geographic (degrees) or projected (meters). -/
structure DemTile where
  nr : ℕ
  nc : ℕ
  elev : ℕ → ℕ → ℚ
  yCoord : ℕ → ℚ
  resX : ℚ
  resY : ℚ
  isGeographic : Bool

/-- Row-axis per-index gradient (`grad_y` of `np.gradient`). -/
def grad_y (d : DemTile) (i j : ℕ) : ℚ := npGradient1 (fun k => d.elev k j) d.nr i

/-- Column-axis per-index gradient (`grad_x` of `np.gradient`). -/
def grad_x (d : DemTile) (i j : ℕ) : ℚ := npGradient1 (fun k => d.elev i k) d.nc j

/-- Conversion `np.radians`: degrees to radians. -/
noncomputable def radiansOf (deg : ℚ) : ℝ := (deg : ℝ) * Real.pi / 180

/-- Per-row meters-per-degree scale in the x-direction:
`111132 * np.cos(lat_rad)`. -/
noncomputable def scale_x (d : DemTile) (i : ℕ) : ℝ :=
  111132 * Real.cos (radiansOf (d.yCoord i))

/-- The x-component of the physical slope: per-index gradient divided by
the cell size, then (for a geographic CRS) by the meters-per-degree
scale at the row's latitude. -/
noncomputable def slope_x_m (d : DemTile) (i j : ℕ) : ℝ :=
  if d.isGeographic then ((grad_x d i j / d.resX : ℚ) : ℝ) / scale_x d i
  else ((grad_x d i j / d.resX : ℚ) : ℝ)

/-- The y-component of the physical slope: per-index gradient divided by
the cell size, then (for a geographic CRS) by the constant 111132
meters per degree. -/
noncomputable def slope_y_m (d : DemTile) (i j : ℕ) : ℝ :=
  if d.isGeographic then ((grad_y d i j / d.resY : ℚ) : ℝ) / 111132
  else ((grad_y d i j / d.resY : ℚ) : ℝ)

/-- Fine-grid slope `np.hypot(slope_x_m, slope_y_m)`. -/
noncomputable def slopeFine (d : DemTile) (i j : ℕ) : ℝ :=
  Real.sqrt (slope_x_m d i j ^ 2 + slope_y_m d i j ^ 2)

/-- C4: in a geographic CRS the x-gradient is converted to
elevation-per-meter by dividing by the cell size times
cos(latitude in radians) x 111132 m/degree, the y-gradient by the cell
size times 111132 m/degree; in a projected CRS the cell sizes are used
directly; and the fine-grid slope is the hypotenuse of the two physical
components. -/
theorem slope_unit_conversion (d : DemTile) (i j : ℕ) :
    (d.isGeographic = true →
      slope_x_m d i j =
        (grad_x d i j : ℝ) / ((d.resX : ℝ) * (111132 * Real.cos (radiansOf (d.yCoord i)))) ∧
      slope_y_m d i j = (grad_y d i j : ℝ) / ((d.resY : ℝ) * 111132)) ∧
    (d.isGeographic = false →
      slope_x_m d i j = (grad_x d i j : ℝ) / (d.resX : ℝ) ∧
      slope_y_m d i j = (grad_y d i j : ℝ) / (d.resY : ℝ)) ∧
    slopeFine d i j = Real.sqrt (slope_x_m d i j ^ 2 + slope_y_m d i j ^ 2) := by
  refine ⟨?_, ?_, rfl⟩
  · intro hgeo
    constructor
    · unfold slope_x_m scale_x
      rw [if_pos hgeo]
      push_cast
      rw [div_div]
    · unfold slope_y_m
      rw [if_pos hgeo]
      push_cast
      rw [div_div]
  · intro hproj
    constructor
    · unfold slope_x_m
      rw [if_neg (by rw [hproj]; exact Bool.false_ne_true)]
      push_cast
      rfl
    · unfold slope_y_m
      rw [if_neg (by rw [hproj]; exact Bool.false_ne_true)]
      push_cast
      rfl

/-- A tiny concrete geographic tile used to witness C4. -/
def demoTile : DemTile where
  nr := 2
  nc := 2
  elev := fun i j => (i : ℚ) + (j : ℚ)
  yCoord := fun _ => 0
  resX := 1
  resY := 1
  isGeographic := true

/-- Witness for C4 on a concrete geographic tile. -/
theorem slope_unit_conversion_witness :
    slope_x_m demoTile 0 0 =
      (grad_x demoTile 0 0 : ℝ) /
        ((demoTile.resX : ℝ) * (111132 * Real.cos (radiansOf (demoTile.yCoord 0)))) ∧
    slope_y_m demoTile 0 0 = (grad_y demoTile 0 0 : ℝ) / ((demoTile.resY : ℝ) * 111132) :=
  (slope_unit_conversion demoTile 0 0).1 rfl

end DemProc

namespace Combine

/-- Coordinate quantization `.round(5)` applied before every join: round
to 5 decimal digits.  (The sources round on binary doubles; here the
rounding is exact over ℚ, with `round` at the half-way ties.) -/
def round5 (x : ℚ) : ℚ := ((round (x * 100000) : ℤ) : ℚ) / 100000

/-- One raster cell of a PRISM variable file, as flattened by
`xr.open_dataset(...).to_dataframe()`: a coordinate pair and the value. -/
structure PrismCell where
  lat : ℚ
  lon : ℚ
  value : ℚ
deriving DecidableEq

/-- One row of a per-month PRISM frame: quantized coordinates, the
stamped year and month, and the variable columns carried so far (a
`none` value is a null from an unmatched left join). -/
structure PRow where
  lat : ℚ
  lon : ℚ
  year : ℤ
  month : ℤ
  vals : List (String × Option ℚ)
deriving DecidableEq

/-- Generic left join, as performed by `polars.join(..., how='left')`:
each base row is kept once per matching right-side row, combined by
`fill`; a base row with no match is kept exactly once, null-filled by
`miss`. -/
def leftJoinBy {ρ σ : Type} (eqKey : ρ → σ → Bool) (fill : ρ → σ → ρ) (miss : ρ → ρ) :
    List ρ → List σ → List ρ
  | [], _ => []
  | r :: rs, t =>
    (if (t.filter (eqKey r)).isEmpty then [miss r]
     else (t.filter (eqKey r)).map (fill r)) ++ leftJoinBy eqKey fill miss rs t

/-- The four PRISM variables a month must provide. -/
def vars_list : List String := ["ppt", "tdmean", "tmax", "vpdmax"]

/-- Embedding of `process_single_prism_file`: build one variable's per-month frame
with quantized coordinates and the year and month stamped on. -/
def process_single_prism_file (content : List PrismCell) (var : String) (year month : ℤ) :
    List PRow :=
  content.map (fun c => ⟨round5 c.lat, round5 c.lon, year, month, [(var, some c.value)]⟩)

/-- Left join of one further variable frame onto the accumulated
per-month frame, on the quantized (lat, lon) key. -/
def joinVar (acc : List PRow) (var : String) (content : List PrismCell) : List PRow :=
  leftJoinBy
    (fun r c => decide (round5 c.lat = r.lat ∧ round5 c.lon = r.lon))
    (fun r c => ⟨r.lat, r.lon, r.year, r.month, r.vals ++ [(var, some c.value)]⟩)
    (fun r => ⟨r.lat, r.lon, r.year, r.month, r.vals ++ [(var, none)]⟩)
    acc content

/-- Lookup `var_files[var]` in the per-month variable-to-file dict. -/
def lookupVar (vf : List (String × List PrismCell)) (v : String) : List PrismCell :=
  ((vf.find? (fun p => p.1 == v)).map Prod.snd).getD []

/-- The per-month combined frame over an explicit variable order: the
first variable's frame is the base, each further variable is
left-joined on (lat, lon). -/
def processVarList (year month : ℤ) (vf : List (String × List PrismCell)) :
    List String → List PRow
  | [] => []
  | v0 :: rest =>
    rest.foldl (fun acc v => joinVar acc v (lookupVar vf v))
      (process_single_prism_file (lookupVar vf v0) v0 year month)

/-- One month of `process_prism_year`: a month whose variable-file dict
does not have one file per variable of `vars_list` is skipped
(`continue`), otherwise its combined frame is produced. -/
def process_month (year month : ℤ) (vf : List (String × List PrismCell)) :
    Option (List PRow) :=
  if vf.length = vars_list.length then some (processVarList year month vf vars_list)
  else none

/-- Embedding of `process_prism_year`: iterate the months in ascending order,
skipping incomplete months, and concatenate the monthly frames; a year
that produced no monthly frame yields `none` (no yearly table). -/
def process_prism_year (year : ℤ)
    (months : List (ℤ × List (String × List PrismCell))) : Option (List PRow) :=
  let monthly := (List.mergeSort months (fun a b => a.1 ≤ b.1)).filterMap
    (fun p => process_month year p.1 p.2)
  if monthly.isEmpty then none else some monthly.flatten

/-- A monthly raster row (MTBS burned area, or NDVI). -/
structure MTRow where
  lat : ℚ
  lon : ℚ
  year : ℤ
  month : ℤ
  value : ℚ
deriving DecidableEq

/-- An annual NLCD land-cover row. -/
structure NLRow where
  lat : ℚ
  lon : ℚ
  year : ℤ
  landcover : ℚ
deriving DecidableEq

/-- A static DEM row. -/
structure DemRow where
  lat : ℚ
  lon : ℚ
  elevation : ℚ
  slope : ℚ
  aspect : ℚ
deriving DecidableEq

/-- A row of the merged per-year table: the PRISM base columns plus the
left-joined source columns (null until and unless matched). -/
structure MRow where
  lat : ℚ
  lon : ℚ
  year : ℤ
  month : ℤ
  vals : List (String × Option ℚ)
  burned_area : Option ℚ
  ndvi : Option ℚ
  landcover : Option ℚ
  elevation : Option ℚ
  slope : Option ℚ
  aspect : Option ℚ
deriving DecidableEq

/-- A PRISM base row entering `merge_year_data`, with every non-base
column still null. -/
def initMRow (r : PRow) : MRow :=
  ⟨r.lat, r.lon, r.year, r.month, r.vals, none, none, none, none, none, none⟩

/-- Left join of the MTBS table on (lat, lon, year, month). -/
def joinMtbs (acc : List MRow) (t : List MTRow) : List MRow :=
  leftJoinBy
    (fun r s => decide (s.lat = r.lat ∧ s.lon = r.lon ∧ s.year = r.year ∧ s.month = r.month))
    (fun r s => {r with burned_area := some s.value})
    (fun r => r)
    acc t

/-- Left join of the NDVI table on (lat, lon, year, month). -/
def joinNdvi (acc : List MRow) (t : List MTRow) : List MRow :=
  leftJoinBy
    (fun r s => decide (s.lat = r.lat ∧ s.lon = r.lon ∧ s.year = r.year ∧ s.month = r.month))
    (fun r s => {r with ndvi := some s.value})
    (fun r => r)
    acc t

/-- Left join of the annual NLCD table on (lat, lon, year). -/
def joinNlcd (acc : List MRow) (t : List NLRow) : List MRow :=
  leftJoinBy
    (fun r s => decide (s.lat = r.lat ∧ s.lon = r.lon ∧ s.year = r.year))
    (fun r s => {r with landcover := some s.landcover})
    (fun r => r)
    acc t

/-- Left join of the static DEM table on (lat, lon). -/
def joinDem (acc : List MRow) (t : List DemRow) : List MRow :=
  leftJoinBy
    (fun r s => decide (s.lat = r.lat ∧ s.lon = r.lon))
    (fun r s => {r with elevation := some s.elevation, slope := some s.slope,
                        aspect := some s.aspect})
    (fun r => r)
    acc t

/-- The `if mtbs_file:` guard of `merge_year_data`: join only when the
source produced a table for the year. -/
def joinMtbsOpt (acc : List MRow) : Option (List MTRow) → List MRow
  | none => acc
  | some t => joinMtbs acc t

/-- The `if ndvi_file:` guard of `merge_year_data`. -/
def joinNdviOpt (acc : List MRow) : Option (List MTRow) → List MRow
  | none => acc
  | some t => joinNdvi acc t

/-- The `if nlcd_file:` guard of `merge_year_data`. -/
def joinNlcdOpt (acc : List MRow) : Option (List NLRow) → List MRow
  | none => acc
  | some t => joinNlcd acc t

/-- The `if dem_file:` guard of `merge_year_data`. -/
def joinDemOpt (acc : List MRow) : Option (List DemRow) → List MRow
  | none => acc
  | some t => joinDem acc t

/-- Embedding of `merge_year_data`: start from the PRISM base and left-join each
available source in turn; a source absent for the year (`none`) is
skipped. -/
def merge_year_data (prismT : List PRow) (mtbsT ndviT : Option (List MTRow))
    (nlcdT : Option (List NLRow)) (demT : Option (List DemRow)) : List MRow :=
  joinDemOpt (joinNlcdOpt (joinNdviOpt (joinMtbsOpt (prismT.map initMRow) mtbsT) ndviT) nlcdT)
    demT

/-- The driving loop of `main`: for each year, build the PRISM base
table; a year whose base is `none` is skipped (`continue`), otherwise
the year is merged and collected as that year's YearTable. -/
def yearTables (years : List ℤ)
    (prism : ℤ → List (ℤ × List (String × List PrismCell)))
    (mtbs ndvi : ℤ → Option (List MTRow)) (nlcd : ℤ → Option (List NLRow))
    (dem : Option (List DemRow)) : List (ℤ × List MRow) :=
  years.filterMap (fun y =>
    (process_prism_year y (prism y)).map
      (fun pt => (y, merge_year_data pt (mtbs y) (ndvi y) (nlcd y) dem)))

/-- The FinalTable: concatenation of all produced YearTables. -/
def finalTable (years : List ℤ)
    (prism : ℤ → List (ℤ × List (String × List PrismCell)))
    (mtbs ndvi : ℤ → Option (List MTRow)) (nlcd : ℤ → Option (List NLRow))
    (dem : Option (List DemRow)) : List MRow :=
  (yearTables years prism mtbs ndvi nlcd dem).flatMap Prod.snd

/-- The required output schema checked by `verify_final_output`. -/
def required_cols : List String :=
  ["lat", "lon", "year", "month", "ppt", "tdmean", "tmax", "vpdmax",
   "burned_area", "ndvi", "landcover", "elevation", "slope", "aspect"]

/-- Embedding of `verify_final_output`: collect the required columns absent from the
final frame and raise (here: return an error) when any are missing. -/
def verify_final_output (cols : List String) : Except (List String) Unit :=
  let missing := required_cols.filter (fun c => !cols.contains c)
  if missing.isEmpty then Except.ok () else Except.error missing

/-- Tail of `main`: the schema gate runs strictly before the sink
write; the written column set is returned only when verification
passes, otherwise the error propagates and nothing is written. -/
def verify_and_write (cols : List String) : Except (List String) (List String) :=
  match verify_final_output cols with
  | Except.ok _ => Except.ok cols
  | Except.error m => Except.error m

end Combine

namespace Combine

theorem leftJoinBy_length {ρ σ : Type} (eqKey : ρ → σ → Bool) (fill : ρ → σ → ρ)
    (miss : ρ → ρ) (base : List ρ) (t : List σ)
    (h : ∀ r ∈ base, (t.filter (eqKey r)).length ≤ 1) :
    (leftJoinBy eqKey fill miss base t).length = base.length := by
  induction base with
  | nil => rfl
  | cons r rs ih =>
    have hr := h r (List.mem_cons_self r rs)
    have hrest : ∀ x ∈ rs, (t.filter (eqKey x)).length ≤ 1 :=
      fun x hx => h x (List.mem_cons_of_mem r hx)
    cases hf : t.filter (eqKey r) with
    | nil => simp [leftJoinBy, hf, ih hrest]
    | cons a as =>
      have hlen : (a :: as).length ≤ 1 := hf ▸ hr
      have has : as = [] := by
        rw [List.length_cons] at hlen
        exact List.eq_nil_of_length_eq_zero (by omega)
      subst has
      simp [leftJoinBy, hf, ih hrest]

theorem leftJoinBy_miss_mem {ρ σ : Type} (eqKey : ρ → σ → Bool) (fill : ρ → σ → ρ)
    (miss : ρ → ρ) (base : List ρ) (t : List σ) (r : ρ) (hr : r ∈ base)
    (hno : t.filter (eqKey r) = []) :
    miss r ∈ leftJoinBy eqKey fill miss base t := by
  induction base with
  | nil => cases hr
  | cons b bs ih =>
    rcases List.mem_cons.mp hr with hb | hb
    · subst hb
      simp [leftJoinBy, hno]
    · exact List.mem_append_right _ (ih hb)

theorem leftJoinBy_pred {ρ σ : Type} (P : ρ → Prop) (eqKey : ρ → σ → Bool)
    (fill : ρ → σ → ρ) (miss : ρ → ρ) (base : List ρ) (t : List σ)
    (hb : ∀ r ∈ base, P r) (hf : ∀ r s, P r → P (fill r s)) (hm : ∀ r, P r → P (miss r)) :
    ∀ x ∈ leftJoinBy eqKey fill miss base t, P x := by
  induction base with
  | nil => intro x hx; cases hx
  | cons b bs ih =>
    intro x hx
    have hb0 : P b := hb b (List.mem_cons_self b bs)
    have hbs : ∀ r ∈ bs, P r := fun r hr => hb r (List.mem_cons_of_mem b hr)
    simp only [leftJoinBy] at hx
    rcases List.mem_append.mp hx with hseg | hrec
    · by_cases he : (t.filter (eqKey b)).isEmpty
      · rw [if_pos he] at hseg
        rcases List.mem_cons.mp hseg with hx0 | hx0
        · subst hx0; exact hm b hb0
        · cases hx0
      · rw [if_neg he] at hseg
        obtain ⟨s, _, hfs⟩ := List.mem_map.mp hseg
        subst hfs
        exact hf b s hb0
    · exact ih hbs x hrec

/-- C5: the per-year left join preserves the base table's row count
whenever each base row has at most one match on the secondary side (in
particular when the secondary's keys are a distinct subset of the
base's), and every base row without a match appears in the output with
the secondary's column still the missing value. -/
theorem left_join_preserves_rows (prismT : List PRow) (t : List MTRow)
    (h : ∀ r ∈ prismT.map initMRow,
      (t.filter (fun s =>
        decide (s.lat = r.lat ∧ s.lon = r.lon ∧ s.year = r.year ∧ s.month = r.month))).length ≤ 1) :
    (joinMtbs (prismT.map initMRow) t).length = prismT.length ∧
    ∀ r ∈ prismT,
      t.filter (fun s =>
        decide (s.lat = (initMRow r).lat ∧ s.lon = (initMRow r).lon ∧
          s.year = (initMRow r).year ∧ s.month = (initMRow r).month)) = [] →
      initMRow r ∈ joinMtbs (prismT.map initMRow) t ∧ (initMRow r).burned_area = none := by
  constructor
  · unfold joinMtbs
    rw [leftJoinBy_length _ _ _ _ _ h, List.length_map]
  · intro r hr hno
    refine ⟨?_, rfl⟩
    unfold joinMtbs
    exact leftJoinBy_miss_mem _ _ _ _ _ (initMRow r) (List.mem_map_of_mem initMRow hr) hno

/-- The spec's concrete base: two distinct keys for year 2000, month 1. -/
def baseDemo : List PRow := [⟨1, 1, 2000, 1, []⟩, ⟨1, 2, 2000, 1, []⟩]

/-- The spec's concrete secondary: a single row covering one base key. -/
def mtbsDemo : List MTRow := [⟨1, 1, 2000, 1, 5⟩]

/-- Witness for C5 at the spec's concrete 2-key/1-key example. -/
theorem left_join_preserves_rows_witness :
    (joinMtbs (baseDemo.map initMRow) mtbsDemo).length = baseDemo.length ∧
    ∀ r ∈ baseDemo,
      mtbsDemo.filter (fun s =>
        decide (s.lat = (initMRow r).lat ∧ s.lon = (initMRow r).lon ∧
          s.year = (initMRow r).year ∧ s.month = (initMRow r).month)) = [] →
      initMRow r ∈ joinMtbs (baseDemo.map initMRow) mtbsDemo ∧
      (initMRow r).burned_area = none :=
  left_join_preserves_rows baseDemo mtbsDemo (by decide)

/-- C7: a final table missing the `aspect` column makes the schema gate
abort with an error naming the missing column, before the sink write. -/
theorem schema_gate_aborts (cols : List String) (h : cols.contains "aspect" = false) :
    verify_and_write cols = Except.error (required_cols.filter (fun c => !cols.contains c)) ∧
    "aspect" ∈ required_cols.filter (fun c => !cols.contains c) := by
  have hmem : "aspect" ∈ required_cols.filter (fun c => !cols.contains c) := by
    rw [List.mem_filter]
    refine ⟨by decide, ?_⟩
    rw [h]
    rfl
  have hne : required_cols.filter (fun c => !cols.contains c) ≠ [] :=
    List.ne_nil_of_mem hmem
  have hfalse : (required_cols.filter (fun c => !cols.contains c)).isEmpty = false := by
    cases hfil : required_cols.filter (fun c => !cols.contains c) with
    | nil => exact absurd hfil hne
    | cons a as => rfl
  refine ⟨?_, hmem⟩
  unfold verify_and_write verify_final_output
  simp only [hfalse, Bool.false_eq_true, if_false]

/-- The full schema with only `aspect` removed. -/
def colsNoAspect : List String :=
  ["lat", "lon", "year", "month", "ppt", "tdmean", "tmax", "vpdmax",
   "burned_area", "ndvi", "landcover", "elevation", "slope"]

/-- Witness for C7: the gate aborts on a table missing only `aspect`. -/
theorem schema_gate_aborts_witness :
    verify_and_write colsNoAspect =
      Except.error (required_cols.filter (fun c => !colsNoAspect.contains c)) ∧
    "aspect" ∈ required_cols.filter (fun c => !colsNoAspect.contains c) :=
  schema_gate_aborts colsNoAspect (by decide)

end Combine

namespace Combine

theorem foldl_preserves {α β : Type} (P : α → Prop) (f : α → β → α) (l : List β) (a : α)
    (ha : P a) (hf : ∀ x b, P x → P (f x b)) : P (l.foldl f a) := by
  induction l generalizing a with
  | nil => exact ha
  | cons b bs ih => exact ih (f a b) (hf a b ha)

theorem process_single_prism_file_stamp (content : List PrismCell) (var : String)
    (year month : ℤ) :
    ∀ r ∈ process_single_prism_file content var year month,
      r.year = year ∧ r.month = month := by
  intro r hr
  obtain ⟨c, _, hc⟩ := List.mem_map.mp hr
  subst hc
  exact ⟨rfl, rfl⟩

theorem joinVar_stamp (year month : ℤ) (acc : List PRow) (var : String)
    (content : List PrismCell)
    (hacc : ∀ r ∈ acc, r.year = year ∧ r.month = month) :
    ∀ r ∈ joinVar acc var content, r.year = year ∧ r.month = month := by
  unfold joinVar
  apply leftJoinBy_pred (fun r => r.year = year ∧ r.month = month) _ _ _ acc content hacc
  · exact fun _ _ hp => hp
  · exact fun _ hp => hp

theorem processVarList_stamp (year month : ℤ) (vf : List (String × List PrismCell))
    (vlist : List String) :
    ∀ r ∈ processVarList year month vf vlist, r.year = year ∧ r.month = month := by
  match vlist with
  | [] => intro r hr; cases hr
  | v0 :: rest =>
    intro r hr
    exact foldl_preserves
      (fun acc : List PRow => ∀ x ∈ acc, x.year = year ∧ x.month = month)
      (fun acc v => joinVar acc v (lookupVar vf v)) rest
      (process_single_prism_file (lookupVar vf v0) v0 year month)
      (process_single_prism_file_stamp _ _ _ _)
      (fun acc v hacc => joinVar_stamp year month acc v (lookupVar vf v) hacc) r hr

theorem process_month_stamp (year m : ℤ) (vf : List (String × List PrismCell))
    (rows : List PRow) (h : process_month year m vf = some rows) :
    ∀ r ∈ rows, r.year = year ∧ r.month = m := by
  unfold process_month at h
  by_cases hc : vf.length = vars_list.length
  · rw [if_pos hc] at h
    rw [← Option.some_inj.mp h]
    exact processVarList_stamp year m vf vars_list
  · rw [if_neg hc] at h
    cases h

theorem process_month_complete (year m : ℤ) (vf : List (String × List PrismCell))
    (rows : List PRow) (h : process_month year m vf = some rows) :
    vf.length = vars_list.length := by
  unfold process_month at h
  by_cases hc : vf.length = vars_list.length
  · exact hc
  · rw [if_neg hc] at h
    cases h

theorem process_prism_year_stamp (year : ℤ)
    (months : List (ℤ × List (String × List PrismCell))) (rows : List PRow)
    (h : process_prism_year year months = some rows) :
    ∀ r ∈ rows, r.year = year ∧
      ∃ m vf, (m, vf) ∈ months ∧ vf.length = vars_list.length ∧ r.month = m := by
  unfold process_prism_year at h
  by_cases he :
      ((List.mergeSort months (fun a b => a.1 ≤ b.1)).filterMap
        (fun p => process_month year p.1 p.2)).isEmpty
  · rw [if_pos he] at h
    cases h
  · rw [if_neg he] at h
    intro r hr
    rw [← Option.some_inj.mp h] at hr
    obtain ⟨tbl, htbl, hrtbl⟩ := List.mem_flatten.mp hr
    obtain ⟨p, hpmem, hpm⟩ := List.mem_filterMap.mp htbl
    have hpmonths : p ∈ months := (List.mergeSort_perm months (fun a b => a.1 ≤ b.1)).mem_iff.mp hpmem
    obtain ⟨hy, hm⟩ := process_month_stamp year p.1 p.2 tbl hpm r hrtbl
    exact ⟨hy, p.1, p.2, hpmonths, process_month_complete year p.1 p.2 tbl hpm, hm⟩

theorem joinMtbsOpt_year (y : ℤ) (acc : List MRow) (t : Option (List MTRow))
    (h : ∀ r ∈ acc, r.year = y) : ∀ r ∈ joinMtbsOpt acc t, r.year = y := by
  cases t with
  | none => exact h
  | some s =>
    show ∀ r ∈ joinMtbs acc s, r.year = y
    unfold joinMtbs
    apply leftJoinBy_pred (fun r => r.year = y) _ _ _ acc s h
    · exact fun _ _ hp => hp
    · exact fun _ hp => hp

theorem joinNdviOpt_year (y : ℤ) (acc : List MRow) (t : Option (List MTRow))
    (h : ∀ r ∈ acc, r.year = y) : ∀ r ∈ joinNdviOpt acc t, r.year = y := by
  cases t with
  | none => exact h
  | some s =>
    show ∀ r ∈ joinNdvi acc s, r.year = y
    unfold joinNdvi
    apply leftJoinBy_pred (fun r => r.year = y) _ _ _ acc s h
    · exact fun _ _ hp => hp
    · exact fun _ hp => hp

theorem joinNlcdOpt_year (y : ℤ) (acc : List MRow) (t : Option (List NLRow))
    (h : ∀ r ∈ acc, r.year = y) : ∀ r ∈ joinNlcdOpt acc t, r.year = y := by
  cases t with
  | none => exact h
  | some s =>
    show ∀ r ∈ joinNlcd acc s, r.year = y
    unfold joinNlcd
    apply leftJoinBy_pred (fun r => r.year = y) _ _ _ acc s h
    · exact fun _ _ hp => hp
    · exact fun _ hp => hp

theorem joinDemOpt_year (y : ℤ) (acc : List MRow) (t : Option (List DemRow))
    (h : ∀ r ∈ acc, r.year = y) : ∀ r ∈ joinDemOpt acc t, r.year = y := by
  cases t with
  | none => exact h
  | some s =>
    show ∀ r ∈ joinDem acc s, r.year = y
    unfold joinDem
    apply leftJoinBy_pred (fun r => r.year = y) _ _ _ acc s h
    · exact fun _ _ hp => hp
    · exact fun _ hp => hp

theorem merge_year_data_stamp (y : ℤ) (prismT : List PRow)
    (mtbsT ndviT : Option (List MTRow)) (nlcdT : Option (List NLRow))
    (demT : Option (List DemRow)) (hp : ∀ r ∈ prismT, r.year = y) :
    ∀ r ∈ merge_year_data prismT mtbsT ndviT nlcdT demT, r.year = y := by
  have h0 : ∀ x ∈ prismT.map initMRow, x.year = y := by
    intro x hx
    obtain ⟨r, hr, hxr⟩ := List.mem_map.mp hx
    subst hxr
    exact hp r hr
  exact joinDemOpt_year y _ demT
    (joinNlcdOpt_year y _ nlcdT
      (joinNdviOpt_year y _ ndviT
        (joinMtbsOpt_year y _ mtbsT h0)))

end Combine

namespace Combine

theorem nodup_keys_eq {α β : Type} {l : List (α × β)} {a : α} {b c : β}
    (hnd : (l.map Prod.fst).Nodup) (hb : (a, b) ∈ l) (hc : (a, c) ∈ l) : b = c := by
  induction l with
  | nil => cases hb
  | cons p ps ih =>
    rw [List.map_cons, List.nodup_cons] at hnd
    rcases List.mem_cons.mp hb with hb0 | hb0 <;> rcases List.mem_cons.mp hc with hc0 | hc0
    · rw [← hb0] at hc0
      exact (congrArg Prod.snd hc0).symm
    · exfalso
      apply hnd.1
      have ha : p.1 = a := by rw [← hb0]
      rw [ha]
      exact List.mem_map_of_mem Prod.fst hc0
    · exfalso
      apply hnd.1
      have ha : p.1 = a := by rw [← hc0]
      rw [ha]
      exact List.mem_map_of_mem Prod.fst hb0
    · exact ih hnd.2 hb0 hc0

/-- C6: a year for which the PRISM base yields no data produces no
YearTable (the driving loop continues), and the FinalTable has no rows
stamped with that year. -/
theorem year_skip (years : List ℤ)
    (prism : ℤ → List (ℤ × List (String × List PrismCell)))
    (mtbs ndvi : ℤ → Option (List MTRow)) (nlcd : ℤ → Option (List NLRow))
    (dem : Option (List DemRow))
    (h : process_prism_year 2010 (prism 2010) = none) :
    (∀ p ∈ yearTables years prism mtbs ndvi nlcd dem, p.1 ≠ 2010) ∧
    (∀ r ∈ finalTable years prism mtbs ndvi nlcd dem, r.year ≠ 2010) := by
  constructor
  · intro p hp
    obtain ⟨y, _, hf⟩ := List.mem_filterMap.mp hp
    cases hpy : process_prism_year y (prism y) with
    | none =>
      rw [hpy] at hf
      cases hf
    | some pt =>
      rw [hpy] at hf
      rw [← Option.some_inj.mp hf]
      intro hc
      simp only at hc
      rw [hc] at hpy
      rw [h] at hpy
      cases hpy
  · intro r hr
    obtain ⟨p, hp, hrp⟩ := List.mem_flatMap.mp hr
    obtain ⟨y, _, hf⟩ := List.mem_filterMap.mp hp
    cases hpy : process_prism_year y (prism y) with
    | none =>
      rw [hpy] at hf
      cases hf
    | some pt =>
      rw [hpy] at hf
      rw [← Option.some_inj.mp hf] at hrp
      have hyear : r.year = y :=
        merge_year_data_stamp y pt (mtbs y) (ndvi y) (nlcd y) dem
          (fun x hx => (process_prism_year_stamp y (prism y) pt hpy x hx).1) r hrp
      intro hc
      rw [hc] at hyear
      rw [← hyear] at hpy
      rw [h] at hpy
      cases hpy

/-- Witness for C6: a run over the single year 2010 with an empty PRISM
source yields no YearTable and an empty FinalTable. -/
theorem year_skip_witness :
    (∀ p ∈ yearTables [2010] (fun _ => []) (fun _ => none) (fun _ => none)
        (fun _ => none) none, p.1 ≠ 2010) ∧
    (∀ r ∈ finalTable [2010] (fun _ => []) (fun _ => none) (fun _ => none)
        (fun _ => none) none, r.year ≠ 2010) :=
  year_skip [2010] (fun _ => []) (fun _ => none) (fun _ => none) (fun _ => none) none
    (by simp [process_prism_year])

/-- C10: the per-year PRISM base has rows for a month only when the
month provides one input file per variable of `vars_list`; a month
missing even one variable's file is silently omitted from the year's
table (its `process_month` step yields nothing) rather than included
with nulls. -/
theorem month_missing_var_omitted (year : ℤ)
    (months : List (ℤ × List (String × List PrismCell)))
    (m : ℤ) (vf : List (String × List PrismCell)) (v : String)
    (hmem : (m, vf) ∈ months)
    (hkeys : (months.map Prod.fst).Nodup)
    (hv : v ∈ vars_list)
    (hmiss : v ∉ vf.map Prod.fst)
    (hsub : ∀ w ∈ vf.map Prod.fst, w ∈ vars_list)
    (hvfnd : (vf.map Prod.fst).Nodup) :
    (∀ r ∈ (process_prism_year year months).getD [], r.month ≠ m) ∧
    process_month year m vf = none := by
  have hnd2 : (v :: vf.map Prod.fst).Nodup := List.nodup_cons.mpr ⟨hmiss, hvfnd⟩
  have hsub2 : (v :: vf.map Prod.fst) ⊆ vars_list := by
    intro x hx
    rcases List.mem_cons.mp hx with h1 | h1
    · rw [h1]
      exact hv
    · exact hsub x h1
  have hle := (List.subperm_of_subset hnd2 hsub2).length_le
  rw [List.length_cons, List.length_map] at hle
  have hlt : vf.length ≠ vars_list.length := by omega
  constructor
  · intro r hr hrm
    cases hpy : process_prism_year year months with
    | none =>
      rw [hpy] at hr
      cases hr
    | some rows =>
      rw [hpy] at hr
      obtain ⟨-, m2, vf2, hmem2, hlen2, hm2⟩ :=
        process_prism_year_stamp year months rows hpy r hr
      have hm2m : m2 = m := by
        rw [← hm2]
        exact hrm
      subst hm2m
      have hvf2 : vf2 = vf := nodup_keys_eq hkeys hmem2 hmem
      rw [hvf2] at hlen2
      exact hlt hlen2
  · unfold process_month
    rw [if_neg hlt]

/-- A concrete PRISM variable file with one cell. -/
def cellDemo : List PrismCell := [⟨1, 1, 3⟩]

/-- A complete month: one file per variable. -/
def vfFull : List (String × List PrismCell) :=
  [("ppt", cellDemo), ("tdmean", cellDemo), ("tmax", cellDemo), ("vpdmax", cellDemo)]

/-- An incomplete month: the `vpdmax` file is missing. -/
def vfMiss : List (String × List PrismCell) :=
  [("ppt", cellDemo), ("tdmean", cellDemo), ("tmax", cellDemo)]

/-- Witness for C10: month 2 lacks the vpdmax file, so its month step
yields nothing and the year table (which does contain month 1) holds no
rows with month 2. -/
theorem month_missing_var_omitted_witness :
    (∀ r ∈ (process_prism_year 2000 [(1, vfFull), (2, vfMiss)]).getD [], r.month ≠ 2) ∧
    process_month 2000 2 vfMiss = none :=
  month_missing_var_omitted 2000 [(1, vfFull), (2, vfMiss)] 2 vfMiss "vpdmax"
    (by decide) (by decide) (by decide) (by decide) (by decide) (by decide)

end Combine
